import Mathlib

/-!
Verification development for the yorosec-agent report core
(`internal/report/generator.go`, `internal/schema`, `pkg/cli` report command).

Modelling conventions:
* Go strings are modelled as Lean `String` (sequences of Unicode code points)
  except where the code manipulates raw bytes: `truncate` measures `len(s)` and
  slices `s[:n]` in UTF-8 BYTES, so it is modelled on the UTF-8 byte string
  (`utf8Bytes`), its result is a byte string (the cut may split a multi-byte
  character), and a row's description and evidence are byte strings.
  Go's byte-wise lexicographic `<` on UTF-8 strings coincides with code-point
  lexicographic order, which is what `ltChars` implements, so `<` on ids is
  faithful. `strings.TrimSpace` / `ToLower` / `ToUpper` are modelled on the
  ASCII fragment (the only one the canonical severities and markers use).
* Go `int` values in this core are non-negative (lengths, counts, weighted sums,
  scores), so they are modelled as `Nat`; Go's integer division on non-negative
  operands is `Nat` division.
* Go map `counts` (string -> int, absent key reads as 0) is modelled as its
  lookup function `String → Nat`; the loop `counts[sev]++` over the findings
  makes that function exactly `List.count` over the list of effective
  severities.  The loop `for sev, c := range counts { total += c; weighted += sevWeight[sev]*c }`
  sums each finding's contribution exactly once (map iteration order is
  irrelevant to a sum), so `total` is the number of findings and `weighted` is
  the sum of the per-finding weights.
* `sort.SliceStable(rows, less)` is modelled as a stable insertion sort
  (`List.insertionSort`) with respect to the complement of the Go `less`
  closure; stability is proved below, not assumed.
* `time.Now()`-derived view-model fields (ScanTime, GeneratedAt, Year) and the
  CVSS float (never read by this core) are outside the embedding.
-/

/-- Whitespace test used by the model of `strings.TrimSpace` (ASCII fragment of
Go's `unicode.IsSpace`). -/
def isSpaceChar (c : Char) : Bool :=
  c = ' ' || c = '\t' || c = '\n' || c = '\r' || c = '\x0b' || c = '\x0c'

/-- ASCII lower-casing of one character, the fragment of `strings.ToLower`
exercised by this core. -/
def lowerChar (c : Char) : Char :=
  if 'A' ≤ c && c ≤ 'Z' then Char.ofNat (c.toNat + 32) else c

/-- ASCII upper-casing of one character, the fragment of `strings.ToUpper`
exercised by this core. -/
def upperChar (c : Char) : Char :=
  if 'a' ≤ c && c ≤ 'z' then Char.ofNat (c.toNat - 32) else c

/-- Model of `strings.TrimSpace` on the character list: drop whitespace from
both ends. -/
def trimChars (cs : List Char) : List Char :=
  ((cs.dropWhile isSpaceChar).reverse.dropWhile isSpaceChar).reverse

/-- Model of `strings.TrimSpace`. -/
def trimSpace (s : String) : String :=
  String.mk (trimChars s.data)

/-- Model of `strings.ToLower`. -/
def toLowerStr (s : String) : String :=
  String.mk (s.data.map lowerChar)

/-- Model of `strings.ToUpper`. -/
def toUpperStr (s : String) : String :=
  String.mk (s.data.map upperChar)

/-- Lexicographic comparison of character lists: the model of Go's `<` on
strings (byte-wise lexicographic on UTF-8, which coincides with code-point
lexicographic order). -/
def ltChars : List Char → List Char → Bool
  | [], [] => false
  | [], _ :: _ => true
  | _ :: _, [] => false
  | a :: as, b :: bs => if a < b then true else if b < a then false else ltChars as bs

/-- Go's `s < t` on strings. -/
def ltStr (s t : String) : Bool :=
  ltChars s.data t.data

/-- `schema.Finding` from `internal/schema` (src/unnamed/part_000).  The CVSS
float is informational only and never read by the report core, so it is not
part of the embedding. -/
structure Finding where
  ID : String
  Target : String
  Scanner : String
  Template : String
  Severity : String
  Description : String
  Evidence : String
  Recommendation : String
  Tags : List String
  deriving Repr, DecidableEq

/-- `schema.ScanResult` (src/unnamed/part_000); the timestamp is only formatted
into the report header, which is outside the embedding. -/
structure ScanResult where
  Target : String
  Findings : List Finding
  deriving Repr, DecidableEq

/-- The local `sevOrder` slice of `buildViewModel`. -/
def sevOrder : List String :=
  ["critical", "high", "medium", "low", "info"]

/-- The local `sevWeight` map of `buildViewModel`, as its lookup function:
a key absent from the Go map reads as 0. -/
def sevWeight (s : String) : Nat :=
  if s = "critical" then 4
  else if s = "high" then 3
  else if s = "medium" then 2
  else if s = "low" then 1
  else 0

/-- Helper `indexOf` from generator.go: first index of `v` in `arr`, or
`len(arr)` when absent. -/
def indexOf (arr : List String) (v : String) : Nat :=
  match arr with
  | [] => 0
  | x :: xs => if x = v then 0 else indexOf xs v + 1

/-- Helper `scoreToGrade` from generator.go. -/
def scoreToGrade (score : Nat) : String :=
  if score ≥ 90 then "A"
  else if score ≥ 80 then "B"
  else if score ≥ 70 then "C"
  else if score ≥ 60 then "D"
  else "F"

/-- Helper `min` from generator.go (on the non-negative values it is applied
to). -/
def goMin (a b : Nat) : Nat :=
  if a < b then a else b

/-- Helper `normalizeCounts` from generator.go: a fresh map holding exactly the
upper-cased keys of `order`, each bound to the incoming count (0 when the key
was absent).  The Go map is modelled as the association list in `order`'s
order, which fixes its key set and makes it printable deterministically. -/
def normalizeCounts (cnt : String → Nat) (order : List String) : List (String × Nat) :=
  order.map (fun k => (toUpperStr k, cnt k))

/-- UTF-8 encoding of a character list: the byte string a Go `string` value
holds. -/
def utf8Bytes (cs : List Char) : List UInt8 :=
  cs.flatMap String.utf8EncodeChar

/-- Helper `truncate` from generator.go: trim, return the string unchanged
when its length is within `n`, otherwise cut to `n` and append the ellipsis
marker.  Go's `len(s)` and `s[:n]` count and slice UTF-8 BYTES, so the model
works on the trimmed string's byte string: the cut may fall inside a
multi-byte character, leaving bytes that are no longer valid UTF-8, which is
why the result is a byte string and not a `String`. -/
def truncate (s : String) (n : Nat) : List UInt8 :=
  let t := utf8Bytes (trimChars s.data)
  if t.length ≤ n then t else t.take n ++ utf8Bytes "…".data

/-- Helper `fallback` from generator.go. -/
def fallback (s fb : String) : String :=
  if trimSpace s = "" then fb else s

/-- The severity normalization inlined at the top of `buildViewModel`'s loop:
`sev := strings.ToLower(strings.TrimSpace(f.Severity)); if sev == "" { sev = "info" }`. -/
def effectiveSeverity (sev : String) : String :=
  let s := toLowerStr (trimSpace sev)
  if s = "" then "info" else s

/-- The list of effective severities of a finding sequence, in input order.
`counts` and the score in `buildViewModel` are functions of this list. -/
def severities (fs : List Finding) : List String :=
  fs.map (fun f => effectiveSeverity f.Severity)

/-- Lookup function of the `counts` map built by `counts[sev]++` over the
findings. -/
def countsOf (fs : List Finding) : String → Nat :=
  fun s => (severities fs).count s

/-- `total` in `buildViewModel`: the sum of all `counts` values, i.e. the
number of findings (each finding increments exactly one key). -/
def totalOf (fs : List Finding) : Nat :=
  (severities fs).length

/-- `weighted` in `buildViewModel`: `Σ sevWeight[sev]*counts[sev]` over the map,
i.e. the sum of each finding's weight. -/
def weightedOf (fs : List Finding) : Nat :=
  ((severities fs).map sevWeight).sum

/-- The score computation of `buildViewModel`:
`score := 100; if total > 0 { penalty := min(100, (weighted*100)/(total*4)); score = 100 - penalty }`. -/
def scoreOf (fs : List Finding) : Nat :=
  if 0 < totalOf fs then 100 - goMin 100 ((weightedOf fs * 100) / (totalOf fs * 4)) else 100

/-- `findingRow` from generator.go. -/
structure findingRow where
  Severity : String
  ID : String
  Template : String
  Description : List UInt8
  Evidence : List UInt8
  Scanner : String
  deriving Repr, DecidableEq

/-- The row built for one finding in `buildViewModel`'s loop. -/
def toRow (f : Finding) : findingRow :=
  { Severity := toUpperStr (effectiveSeverity f.Severity)
    ID := fallback f.ID "N/A"
    Template := fallback f.Template "-"
    Description := truncate f.Description 500
    Evidence := truncate f.Evidence 200
    Scanner := f.Scanner }

/-- The `rows` slice before sorting, in input order. -/
def rawRows (fs : List Finding) : List findingRow :=
  fs.map toRow

/-- The severity rank computed inside the sort closure:
`indexOf(sevOrder, strings.ToLower(rows[i].Severity))`. -/
def sevRank (r : findingRow) : Nat :=
  indexOf sevOrder (toLowerStr r.Severity)

/-- The `less` closure passed to `sort.SliceStable`: compare severity ranks,
ties broken by `ID`. -/
def rowLess (a b : findingRow) : Bool :=
  if sevRank a ≠ sevRank b then decide (sevRank a < sevRank b) else ltStr a.ID b.ID

/-- The non-strict counterpart of `rowLess`: `a` may be placed at or before `b`.
`sort.SliceStable` produces the unique `rowLess`-sorted stable permutation, which
is the insertion sort by this relation. -/
def rowLE (a b : findingRow) : Prop :=
  rowLess b a = false

instance : DecidableRel rowLE :=
  fun a b => instDecidableEqBool (rowLess b a) false

/-- The sort key the `less` closure compares by: (severity rank, id). -/
def rowKeyOf (r : findingRow) : Nat × String :=
  (sevRank r, r.ID)

/-- Model of `sort.SliceStable(rows, less)`: the stable sort of the rows by
`rowLess`. -/
def sortRows (rs : List findingRow) : List findingRow :=
  rs.insertionSort rowLE

/-- The findings-derived part of `viewModel` from generator.go (the clock-derived
fields ScanTime, GeneratedAt and Year are outside the embedding). -/
structure viewModel where
  Target : String
  TotalFindings : Nat
  Counts : List (String × Nat)
  Score : Nat
  Grade : String
  Findings : List findingRow
  Generator : String
  LegendSeverity : List String
  deriving Repr, DecidableEq

/-- `buildViewModel` from generator.go. -/
def buildViewModel (res : ScanResult) : viewModel :=
  { Target := res.Target
    TotalFindings := totalOf res.Findings
    Counts := normalizeCounts (countsOf res.Findings) sevOrder
    Score := scoreOf res.Findings
    Grade := scoreToGrade (scoreOf res.Findings)
    Findings := sortRows (rawRows res.Findings)
    Generator := "yorosec-agent"
    LegendSeverity := ["CRITICAL", "HIGH", "MEDIUM", "LOW", "INFO"] }

/-- Go's `strings.Split(s, sep)` for a one-character separator, on the
character list: `Split("", ",") = [""]`, and separators delimit (possibly
empty) groups. -/
def splitOnChar (sep : Char) : List Char → List (List Char)
  | [] => [[]]
  | c :: rest =>
    let r := splitOnChar sep rest
    if c = sep then [] :: r
    else
      match r with
      | [] => [[c]]
      | g :: gs => (c :: g) :: gs

/-- Helper `contains` from the report command (src/unnamed/part_003). -/
def containsStr (arr : List String) (v : String) : Bool :=
  match arr with
  | [] => false
  | x :: xs => if x = v then true else containsStr xs v

/-- The format list computed by `runReport`:
`strings.Split(formatStr, ",")`, each entry trimmed and lower-cased. -/
def parseFormats (formatStr : String) : List String :=
  (splitOnChar ',' formatStr.data).map (fun g => toLowerStr (trimSpace (String.mk g)))

/-- `runReport` from the report command (src/unnamed/part_003, the chromedp
variant matching generator.go).  The external collaborators are passed as
black-box outcomes: `load` is the scan-result load for the given directory,
`gen` is HTML generation (returning the written path), `pdf` is PDF conversion
(returning the written path); an `error` value carries the Go error message.
Empty `--from` and load/HTML failures abort with the error; a PDF failure is
printed as a warning and the command continues; on success the HTML path and
the PDF path (when one was produced) are returned. -/
def runReport (fromDir formatStr : String) (load : Except String ScanResult)
    (gen : ScanResult → Except String String) (pdf : String → Except String String) :
    Except String (String × Option String) :=
  if fromDir = "" then
    Except.error "please provide --from pointing to the scan directory (with results.json)"
  else
    let formats := parseFormats formatStr
    match load with
    | Except.error e => Except.error e
    | Except.ok res =>
      match gen res with
      | Except.error e => Except.error e
      | Except.ok htmlPath =>
        let pdfPath :=
          if containsStr formats "pdf" then
            match pdf htmlPath with
            | Except.error _ => none
            | Except.ok p => some p
          else none
        Except.ok (htmlPath, pdfPath)

/-- A finding carrying only an id and a severity, as used by the spec's
ordering example (all other fields empty). -/
def mkExampleFinding (id sev : String) : Finding :=
  ⟨id, "", "", "", sev, "", "", "", []⟩

/-- The finding sequence of the spec's ordering example: severities
`[low, critical, high, info, critical]` with ids `[z, b, a, m, a]`. -/
def exampleFindings : List Finding :=
  [mkExampleFinding "z" "low", mkExampleFinding "b" "critical",
   mkExampleFinding "a" "high", mkExampleFinding "m" "info",
   mkExampleFinding "a" "critical"]

theorem ltChars_irrefl : ∀ l : List Char, ltChars l l = false
  | [] => rfl
  | a :: as => by simp [ltChars, ltChars_irrefl as]

theorem ltChars_trans : ∀ {a b c : List Char},
    ltChars a b = true → ltChars b c = true → ltChars a c = true
  | [], _ :: _, _ :: _, _, _ => rfl
  | [], _ :: _, [], _, hbc => by simp [ltChars] at hbc
  | [], [], _, hab, _ => by simp [ltChars] at hab
  | _ :: _, [], _, hab, _ => by simp [ltChars] at hab
  | _ :: _, _ :: _, [], _, hbc => by simp [ltChars] at hbc
  | a :: as, b :: bs, c :: cs, hab, hbc => by
    simp only [ltChars] at hab hbc ⊢
    by_cases h1 : a < b
    · by_cases h2 : b < c
      · simp [lt_trans h1 h2]
      · by_cases h3 : c < b
        · rw [if_neg h2, if_pos h3] at hbc
          exact absurd hbc (by simp)
        · have hbc2 : b = c := le_antisymm (le_of_not_lt h3) (le_of_not_lt h2)
          subst hbc2
          simp [h1]
    · by_cases h4 : b < a
      · rw [if_neg h1, if_pos h4] at hab
        exact absurd hab (by simp)
      · have hab2 : a = b := le_antisymm (le_of_not_lt h4) (le_of_not_lt h1)
        subst hab2
        rw [if_neg h1, if_neg h4] at hab
        by_cases h2 : a < c
        · simp [h2]
        · by_cases h3 : c < a
          · rw [if_neg h2, if_pos h3] at hbc
            exact absurd hbc (by simp)
          · rw [if_neg h2, if_neg h3] at hbc ⊢
            exact ltChars_trans hab hbc

theorem ltChars_trich : ∀ a b : List Char,
    ltChars a b = true ∨ a = b ∨ ltChars b a = true
  | [], [] => Or.inr (Or.inl rfl)
  | [], _ :: _ => Or.inl rfl
  | _ :: _, [] => Or.inr (Or.inr rfl)
  | a :: as, b :: bs => by
    rcases lt_trichotomy a b with h | h | h
    · exact Or.inl (by simp [ltChars, h])
    · subst h
      rcases ltChars_trich as bs with h2 | h2 | h2
      · exact Or.inl (by simp [ltChars, h2])
      · exact Or.inr (Or.inl (by rw [h2]))
      · exact Or.inr (Or.inr (by simp [ltChars, h2]))
    · exact Or.inr (Or.inr (by simp [ltChars, h]))

theorem ne_false_eq_true {b : Bool} (h : ¬ b = false) : b = true := by
  cases b
  · exact absurd rfl h
  · rfl

theorem ltChars_asymm {x y : List Char} (h : ltChars x y = true) : ltChars y x = false := by
  by_contra hc
  have h2 := ne_false_eq_true hc
  have h3 := ltChars_trans h h2
  rw [ltChars_irrefl] at h3
  exact Bool.noConfusion h3

theorem ltChars_false_trans {x y z : List Char} (h1 : ltChars y x = false)
    (h2 : ltChars z y = false) : ltChars z x = false := by
  by_contra hc
  have h3 := ne_false_eq_true hc
  rcases ltChars_trich x y with h4 | h4 | h4
  · have h5 := ltChars_trans h3 h4
    rw [h5] at h2
    exact Bool.noConfusion h2
  · subst h4
    rw [h3] at h2
    exact Bool.noConfusion h2
  · rw [h4] at h1
    exact Bool.noConfusion h1

theorem not_rowLE_iff {a b : findingRow} : ¬ rowLE a b ↔ rowLess b a = true := by
  unfold rowLE
  cases h : rowLess b a <;> simp

theorem rowLE_iff {a b : findingRow} :
    rowLE a b ↔ (sevRank a < sevRank b ∨ (sevRank a = sevRank b ∧ ltStr b.ID a.ID = false)) := by
  unfold rowLE rowLess
  by_cases h : sevRank b ≠ sevRank a
  · rw [if_pos h]
    constructor
    · intro hd
      have hnb : ¬ sevRank b < sevRank a := of_decide_eq_false hd
      exact Or.inl (by omega)
    · rintro (h1 | ⟨h1, _⟩)
      · exact decide_eq_false (by omega)
      · exact absurd h1.symm h
  · rw [if_neg h]
    push_neg at h
    constructor
    · intro hd
      exact Or.inr ⟨h.symm, hd⟩
    · rintro (h1 | ⟨_, h2⟩)
      · omega
      · exact h2

instance : IsTrans findingRow rowLE := ⟨by
  intro a b c hab hbc
  rw [rowLE_iff] at hab hbc ⊢
  rcases hab with h1 | ⟨h1, h2⟩ <;> rcases hbc with h3 | ⟨h3, h4⟩
  · exact Or.inl (by omega)
  · exact Or.inl (by omega)
  · exact Or.inl (by omega)
  · exact Or.inr ⟨by omega, ltChars_false_trans h2 h4⟩⟩

instance : IsTotal findingRow rowLE := ⟨by
  intro a b
  rw [rowLE_iff, rowLE_iff]
  rcases Nat.lt_trichotomy (sevRank a) (sevRank b) with h | h | h
  · exact Or.inl (Or.inl h)
  · rcases ltChars_trich a.ID.data b.ID.data with h2 | h2 | h2
    · exact Or.inl (Or.inr ⟨h, ltChars_asymm h2⟩)
    · exact Or.inl (Or.inr ⟨h, by unfold ltStr; rw [h2, ltChars_irrefl]⟩)
    · exact Or.inr (Or.inr ⟨h.symm, ltChars_asymm h2⟩)
  · exact Or.inr (Or.inl h)⟩

theorem rowLess_true_key_ne {x y : findingRow} (h : rowLess x y = true) :
    rowKeyOf x ≠ rowKeyOf y := by
  intro heq
  have h1 : sevRank x = sevRank y := congrArg Prod.fst heq
  have h2 : x.ID = y.ID := congrArg Prod.snd heq
  simp [rowLess, h1, h2, ltStr, ltChars_irrefl] at h

theorem filter_orderedInsert_pos (p : findingRow → Bool) (a : findingRow) :
    ∀ l : List findingRow, p a = true → (∀ b, rowLess b a = true → p b = false) →
      (List.orderedInsert rowLE a l).filter p = a :: l.filter p
  | [], hpa, _ => by simp [List.orderedInsert, List.filter, hpa]
  | b :: l, hpa, hskip => by
    unfold List.orderedInsert
    by_cases hab : rowLE a b
    · rw [if_pos hab]
      simp [List.filter_cons, hpa]
    · rw [if_neg hab]
      have hpb : p b = false := hskip b (not_rowLE_iff.mp hab)
      simp [List.filter_cons, hpb, filter_orderedInsert_pos p a l hpa hskip]

theorem filter_orderedInsert_neg (p : findingRow → Bool) (a : findingRow) :
    ∀ l : List findingRow, p a = false →
      (List.orderedInsert rowLE a l).filter p = l.filter p
  | [], hpa => by simp [List.orderedInsert, List.filter, hpa]
  | b :: l, hpa => by
    unfold List.orderedInsert
    by_cases hab : rowLE a b
    · rw [if_pos hab]
      simp [List.filter_cons, hpa]
    · rw [if_neg hab]
      simp [List.filter_cons, filter_orderedInsert_neg p a l hpa]

theorem filter_insertionSort (p : findingRow → Bool)
    (hp : ∀ x y, p x = true → rowLess y x = true → p y = false) :
    ∀ l : List findingRow, (List.insertionSort rowLE l).filter p = l.filter p
  | [] => rfl
  | a :: l => by
    show (List.orderedInsert rowLE a (List.insertionSort rowLE l)).filter p = _
    by_cases hpa : p a = true
    · rw [filter_orderedInsert_pos p a _ hpa (fun b hb => hp a b hpa hb),
        filter_insertionSort p hp l]
      simp [List.filter_cons, hpa]
    · have hpa2 : p a = false := by
        cases h : p a
        · rfl
        · exact absurd h hpa
      rw [filter_orderedInsert_neg p a _ hpa2, filter_insertionSort p hp l]
      simp [List.filter_cons, hpa2]

theorem filter_sortRows (k : Nat × String) (l : List findingRow) :
    (sortRows l).filter (fun r => decide (rowKeyOf r = k)) =
      l.filter (fun r => decide (rowKeyOf r = k)) := by
  refine filter_insertionSort _ (fun x y hx hyx => ?_) l
  have hk : rowKeyOf x = k := of_decide_eq_true hx
  refine decide_eq_false (fun hy => ?_)
  exact rowLess_true_key_ne hyx (by rw [hy, hk])

theorem sortRows_perm (l : List findingRow) : List.Perm (sortRows l) l :=
  List.perm_insertionSort rowLE l

theorem sortRows_sorted (l : List findingRow) :
    (sortRows l).Sorted
      (fun a b => sevRank a < sevRank b ∨ (sevRank a = sevRank b ∧ ltStr b.ID a.ID = false)) := by
  have h := List.sorted_insertionSort rowLE l
  exact h.imp (fun hxy => rowLE_iff.mp hxy)

theorem totalOf_eq_length (fs : List Finding) : totalOf fs = fs.length :=
  List.length_map fs _

theorem goMin_eq_min (a b : Nat) : goMin a b = min a b := by
  unfold goMin
  rw [Nat.min_def]
  split_ifs <;> omega

theorem scoreOf_le_100 (fs : List Finding) : scoreOf fs ≤ 100 := by
  unfold scoreOf
  split_ifs
  · exact Nat.sub_le _ _
  · exact le_refl 100

theorem scoreToGrade_char (s : Nat) :
    (scoreToGrade s = "A" ↔ 90 ≤ s) ∧ (scoreToGrade s = "B" ↔ 80 ≤ s ∧ s < 90) ∧
    (scoreToGrade s = "C" ↔ 70 ≤ s ∧ s < 80) ∧ (scoreToGrade s = "D" ↔ 60 ≤ s ∧ s < 70) ∧
    (scoreToGrade s = "F" ↔ s < 60) := by
  unfold scoreToGrade
  split_ifs with h1 h2 h3 h4
  · exact ⟨iff_of_true rfl (by omega), iff_of_false (by decide) (by omega),
      iff_of_false (by decide) (by omega), iff_of_false (by decide) (by omega),
      iff_of_false (by decide) (by omega)⟩
  · exact ⟨iff_of_false (by decide) (by omega), iff_of_true rfl (by omega),
      iff_of_false (by decide) (by omega), iff_of_false (by decide) (by omega),
      iff_of_false (by decide) (by omega)⟩
  · exact ⟨iff_of_false (by decide) (by omega), iff_of_false (by decide) (by omega),
      iff_of_true rfl (by omega), iff_of_false (by decide) (by omega),
      iff_of_false (by decide) (by omega)⟩
  · exact ⟨iff_of_false (by decide) (by omega), iff_of_false (by decide) (by omega),
      iff_of_false (by decide) (by omega), iff_of_true rfl (by omega),
      iff_of_false (by decide) (by omega)⟩
  · exact ⟨iff_of_false (by decide) (by omega), iff_of_false (by decide) (by omega),
      iff_of_false (by decide) (by omega), iff_of_false (by decide) (by omega),
      iff_of_true rfl (by omega)⟩

theorem length_filter_or {α : Type} (p q : α → Bool) (hdisj : ∀ a, p a = true → q a = false) :
    ∀ l : List α,
      (l.filter (fun s => p s || q s)).length = (l.filter p).length + (l.filter q).length
  | [] => by simp
  | a :: l => by
    have ih := length_filter_or p q hdisj l
    by_cases hpa : p a = true
    · have hqa : q a = false := hdisj a hpa
      simp [List.filter_cons, hpa, hqa, ih]
      omega
    · have hpa2 : p a = false := by
        cases h : p a
        · rfl
        · exact absurd h hpa
      by_cases hqa : q a = true
      · simp [List.filter_cons, hpa2, hqa, ih]
        omega
      · have hqa2 : q a = false := by
          cases h : q a
          · rfl
          · exact absurd h hqa
        simp [List.filter_cons, hpa2, hqa2, ih]

theorem count_eq_length_filter_decide (k : String) :
    ∀ l : List String, l.count k = (l.filter (fun s => decide (s = k))).length
  | [] => by simp
  | a :: l => by
    have ih := count_eq_length_filter_decide k l
    by_cases ha : a = k
    · simp [List.count_cons, List.filter_cons, ha, ih]
    · simp [List.count_cons, List.filter_cons, ha, ih]

theorem count_sum_eq_filter_length :
    ∀ ks : List String, ks.Nodup → ∀ l : List String,
      ((ks.map (fun k => l.count k)).sum = (l.filter (fun s => decide (s ∈ ks))).length)
  | [], _, l => by simp
  | k :: ks, hnd, l => by
    have hk : k ∉ ks := (List.nodup_cons.mp hnd).1
    have hnd2 : ks.Nodup := (List.nodup_cons.mp hnd).2
    have hfun : (fun s => decide (s ∈ k :: ks)) = (fun s => decide (s = k) || decide (s ∈ ks)) := by
      funext s
      by_cases h1 : s = k <;> by_cases h2 : s ∈ ks <;> simp [h1, h2]
    have hdisj : ∀ s : String, decide (s = k) = true → decide (s ∈ ks) = false := by
      intro s hs
      have : s = k := of_decide_eq_true hs
      subst this
      exact decide_eq_false hk
    rw [List.map_cons, List.sum_cons, count_sum_eq_filter_length ks hnd2 l, hfun,
      length_filter_or _ _ hdisj l, count_eq_length_filter_decide k l]

theorem filter_length_eq_iff {p : String → Bool} {l : List String} :
    (l.filter p).length = l.length ↔ ∀ a ∈ l, p a = true := by
  induction l with
  | nil => simp
  | cons a l ih =>
    by_cases hpa : p a = true
    · simp [List.filter_cons, hpa, ih]
    · have hf : (l.filter p).length ≤ l.length := l.length_filter_le p
      have hpa2 : p a = false := by
        cases h : p a
        · rfl
        · exact absurd h hpa
      simp only [List.filter_cons, hpa2]
      constructor
      · intro h
        simp at h
        omega
      · intro h
        exact absurd (h a (List.mem_cons_self a l)) hpa

theorem sum_map_weight_const (w : Nat) :
    ∀ l : List String, (∀ x ∈ l, sevWeight x = w) → (l.map sevWeight).sum = w * l.length
  | [], _ => by simp
  | a :: l, h => by
    rw [List.map_cons, List.sum_cons, h a (List.mem_cons_self a l),
      sum_map_weight_const w l (fun x hx => h x (List.mem_cons_of_mem a hx)),
      List.length_cons, Nat.mul_succ]
    omega

/-- C1 counterexample: a finding whose severity is the unrecognized string
"unknown" keeps effective severity "unknown", which is neither canonical nor
"info", and it flows into the severity list the aggregator consumes: the
claimed normalization of unrecognized severities to info does not happen. -/
theorem c1_counterexample :
    effectiveSeverity "unknown" = "unknown" ∧ "unknown" ∉ sevOrder ∧
      effectiveSeverity "unknown" ≠ "info" ∧
      severities [mkExampleFinding "a" "unknown"] = ["unknown"] := by
  decide

/-- C1 (amended): the effective severity is never empty and equals either
"info" or the lowercased trimmed input; it is one of the five canonical values
exactly when the lowercased trimmed input severity is empty or itself
canonical - an unrecognized non-empty severity passes through unchanged, so
non-canonical severities are possible at aggregation and display time. -/
theorem c1_amended : ∀ sev : String,
    effectiveSeverity sev ≠ "" ∧
    (effectiveSeverity sev = "info" ∨ effectiveSeverity sev = toLowerStr (trimSpace sev)) ∧
    (effectiveSeverity sev ∈ sevOrder ↔
      (toLowerStr (trimSpace sev) = "" ∨ toLowerStr (trimSpace sev) ∈ sevOrder)) := by
  intro sev
  unfold effectiveSeverity
  by_cases h : toLowerStr (trimSpace sev) = ""
  · rw [if_pos h]
    exact ⟨by decide, Or.inl rfl, by simp [h]; decide⟩
  · rw [if_neg h]
    exact ⟨h, Or.inr rfl, by simp [h]⟩

/-- C2 counterexample: for one finding with severity "unknown", the five
displayed counts sum to 0 while totalFindings is 1, so the counts values do
not sum to totalFindings. -/
theorem c2_counterexample :
    ((buildViewModel ⟨"t", [mkExampleFinding "a" "unknown"]⟩).Counts.map Prod.snd).sum = 0 ∧
    (buildViewModel ⟨"t", [mkExampleFinding "a" "unknown"]⟩).TotalFindings = 1 := by
  decide

/-- C2 (amended): the counts map holds exactly the five canonical severity
keys in uppercase (each present, 0 when absent), and the five count values
sum to the number of findings whose effective severity is canonical; that sum
equals totalFindings exactly when every finding's effective severity is one
of the five canonical values. -/
theorem c2_amended : ∀ res : ScanResult,
    (buildViewModel res).Counts.map Prod.fst = ["CRITICAL", "HIGH", "MEDIUM", "LOW", "INFO"] ∧
    ((buildViewModel res).Counts.map Prod.snd).sum =
      ((severities res.Findings).filter (fun s => decide (s ∈ sevOrder))).length ∧
    (((buildViewModel res).Counts.map Prod.snd).sum = (buildViewModel res).TotalFindings ↔
      ∀ s ∈ severities res.Findings, s ∈ sevOrder) := by
  intro res
  have hsum : ((buildViewModel res).Counts.map Prod.snd).sum =
      ((severities res.Findings).filter (fun s => decide (s ∈ sevOrder))).length := by
    show ((normalizeCounts (countsOf res.Findings) sevOrder).map Prod.snd).sum = _
    unfold normalizeCounts
    rw [List.map_map]
    exact count_sum_eq_filter_length sevOrder (by decide) (severities res.Findings)
  have hkeys : (buildViewModel res).Counts.map Prod.fst =
      ["CRITICAL", "HIGH", "MEDIUM", "LOW", "INFO"] := by
    show ((normalizeCounts (countsOf res.Findings) sevOrder).map Prod.fst) = _
    unfold normalizeCounts
    rw [List.map_map]
    rfl
  refine ⟨hkeys, hsum, ?_⟩
  rw [hsum]
  show _ = totalOf res.Findings ↔ _
  unfold totalOf
  rw [filter_length_eq_iff]
  simp

/-- C3: the score is 100 for an empty finding sequence and otherwise
100 - min(100, floor(weighted*100/(total*4))), where weighted sums per-finding
weights critical=4, high=3, medium=2, low=1, info=0; the score is at most 100
(a natural number, hence at least 0), and the grade is the documented step
function of the score. -/
theorem c3_score_grade : ∀ res : ScanResult,
    (buildViewModel res).Score =
      (if res.Findings.length = 0 then 100
       else 100 - min 100 ((weightedOf res.Findings * 100) / (res.Findings.length * 4))) ∧
    (buildViewModel res).Score ≤ 100 ∧
    (sevWeight "critical" = 4 ∧ sevWeight "high" = 3 ∧ sevWeight "medium" = 2 ∧
      sevWeight "low" = 1 ∧ sevWeight "info" = 0) ∧
    ((buildViewModel res).Grade = "A" ↔ 90 ≤ (buildViewModel res).Score) ∧
    ((buildViewModel res).Grade = "B" ↔
      80 ≤ (buildViewModel res).Score ∧ (buildViewModel res).Score < 90) ∧
    ((buildViewModel res).Grade = "C" ↔
      70 ≤ (buildViewModel res).Score ∧ (buildViewModel res).Score < 80) ∧
    ((buildViewModel res).Grade = "D" ↔
      60 ≤ (buildViewModel res).Score ∧ (buildViewModel res).Score < 70) ∧
    ((buildViewModel res).Grade = "F" ↔ (buildViewModel res).Score < 60) := by
  intro res
  have hs : (buildViewModel res).Score = scoreOf res.Findings := rfl
  have hform : scoreOf res.Findings =
      (if res.Findings.length = 0 then 100
       else 100 - min 100 ((weightedOf res.Findings * 100) / (res.Findings.length * 4))) := by
    unfold scoreOf
    rw [totalOf_eq_length, goMin_eq_min]
    by_cases h : res.Findings.length = 0
    · rw [if_neg (by omega), if_pos h]
    · rw [if_pos (by omega), if_neg h]
  obtain ⟨hA, hB, hC, hD, hF⟩ := scoreToGrade_char (scoreOf res.Findings)
  exact ⟨hform, scoreOf_le_100 res.Findings, by decide, hA, hB, hC, hD, hF⟩

/-- C4: the aggregate result (score, grade, counts, totalFindings) is
deterministic and order-independent: any two scan results whose
effective-severity lists are permutations of each other - in particular any
permutation of one finding sequence, whatever the other fields hold - yield
the same four aggregate values. -/
theorem c4_order_independent : ∀ r₁ r₂ : ScanResult,
    List.Perm (severities r₁.Findings) (severities r₂.Findings) →
    (buildViewModel r₁).Score = (buildViewModel r₂).Score ∧
    (buildViewModel r₁).Grade = (buildViewModel r₂).Grade ∧
    (buildViewModel r₁).Counts = (buildViewModel r₂).Counts ∧
    (buildViewModel r₁).TotalFindings = (buildViewModel r₂).TotalFindings := by
  intro r₁ r₂ hp
  have htot : totalOf r₁.Findings = totalOf r₂.Findings := hp.length_eq
  have hw : weightedOf r₁.Findings = weightedOf r₂.Findings := (hp.map sevWeight).sum_eq
  have hcnt : countsOf r₁.Findings = countsOf r₂.Findings := by
    funext s
    exact hp.count_eq s
  have hscore : scoreOf r₁.Findings = scoreOf r₂.Findings := by
    unfold scoreOf
    rw [htot, hw]
  refine ⟨hscore, ?_, ?_, htot⟩
  · show scoreToGrade (scoreOf r₁.Findings) = scoreToGrade (scoreOf r₂.Findings)
    rw [hscore]
  · show normalizeCounts (countsOf r₁.Findings) sevOrder = normalizeCounts (countsOf r₂.Findings) sevOrder
    rw [hcnt]

/-- C4 witness: two concrete runs whose severity multisets agree but whose
order and other fields differ get equal aggregates. -/
theorem c4_witness :
    (buildViewModel ⟨"t", [mkExampleFinding "x" "high", mkExampleFinding "y" "low"]⟩).Score =
      (buildViewModel ⟨"u", [⟨"y2", "tgt", "scn", "tpl", " LOW ", "desc", "ev", "rec", ["tag"]⟩,
        mkExampleFinding "x" "HIGH"]⟩).Score ∧
    (buildViewModel ⟨"t", [mkExampleFinding "x" "high", mkExampleFinding "y" "low"]⟩).Grade =
      (buildViewModel ⟨"u", [⟨"y2", "tgt", "scn", "tpl", " LOW ", "desc", "ev", "rec", ["tag"]⟩,
        mkExampleFinding "x" "HIGH"]⟩).Grade ∧
    (buildViewModel ⟨"t", [mkExampleFinding "x" "high", mkExampleFinding "y" "low"]⟩).Counts =
      (buildViewModel ⟨"u", [⟨"y2", "tgt", "scn", "tpl", " LOW ", "desc", "ev", "rec", ["tag"]⟩,
        mkExampleFinding "x" "HIGH"]⟩).Counts ∧
    (buildViewModel ⟨"t", [mkExampleFinding "x" "high", mkExampleFinding "y" "low"]⟩).TotalFindings =
      (buildViewModel ⟨"u", [⟨"y2", "tgt", "scn", "tpl", " LOW ", "desc", "ev", "rec", ["tag"]⟩,
        mkExampleFinding "x" "HIGH"]⟩).TotalFindings :=
  c4_order_independent _ _ (by decide)

/-- C5: the displayed rows are a permutation of the per-finding rows, sorted
by severity rank in the fixed order critical, high, medium, low, info with
ties broken by id ascending, and the sort is stable: for every (rank, id) key
the rows with that key appear in input order; on the spec's example the order
is the two criticals (id a before b), then high, then low, then info. -/
theorem c5_ordering : ∀ res : ScanResult,
    List.Perm ((buildViewModel res).Findings) (rawRows res.Findings) ∧
    ((buildViewModel res).Findings).Sorted
      (fun a b => sevRank a < sevRank b ∨ (sevRank a = sevRank b ∧ ltStr b.ID a.ID = false)) ∧
    (∀ k : Nat × String,
      ((buildViewModel res).Findings).filter (fun r => decide (rowKeyOf r = k)) =
        (rawRows res.Findings).filter (fun r => decide (rowKeyOf r = k))) ∧
    (indexOf sevOrder "critical" = 0 ∧ indexOf sevOrder "high" = 1 ∧
      indexOf sevOrder "medium" = 2 ∧ indexOf sevOrder "low" = 3 ∧
      indexOf sevOrder "info" = 4) ∧
    ((buildViewModel ⟨"t", exampleFindings⟩).Findings).map (fun r => (r.Severity, r.ID)) =
      [("CRITICAL", "a"), ("CRITICAL", "b"), ("HIGH", "a"), ("LOW", "z"), ("INFO", "m")] := by
  intro res
  exact ⟨sortRows_perm _, sortRows_sorted _, fun k => filter_sortRows k _, by decide, by decide⟩

/-- C6: the report command's outcome and primary HTML path are identical for
any two PDF backends, and when the load and the HTML generation succeed the
command succeeds with that HTML path no matter whether or how PDF conversion
fails. -/
theorem c6_secondary_independent :
    ∀ (fromDir formatStr : String) (load : Except String ScanResult)
      (gen : ScanResult → Except String String)
      (pdf1 pdf2 : String → Except String String),
    ((runReport fromDir formatStr load gen pdf1).map Prod.fst =
      (runReport fromDir formatStr load gen pdf2).map Prod.fst) ∧
    (∀ (res : ScanResult) (h : String), fromDir ≠ "" → load = Except.ok res →
      gen res = Except.ok h →
      (runReport fromDir formatStr load gen pdf1).map Prod.fst = Except.ok h) := by
  intro fromDir formatStr load gen pdf1 pdf2
  constructor
  · unfold runReport
    by_cases hf : fromDir = ""
    · simp only [if_pos hf]
    · simp only [if_neg hf]
      cases load with
      | error e => rfl
      | ok res =>
        cases hg : gen res with
        | error e => simp [hg]
        | ok h => simp [hg, Except.map]
  · intro res h hne hload hgen
    subst hload
    unfold runReport
    simp [if_neg hne, hgen, Except.map]

/-- C6 witness: with a failing PDF backend the concrete report run returns
the same success and HTML path as with a working one. -/
theorem c6_witness :
    ((runReport "d" "html,pdf" (Except.ok ⟨"t", []⟩) (fun _ => Except.ok "d/report.html")
        (fun _ => Except.error "chromedp PDF generation failed")).map Prod.fst =
      (runReport "d" "html,pdf" (Except.ok ⟨"t", []⟩) (fun _ => Except.ok "d/report.html")
        (fun _ => Except.ok "d/report.pdf")).map Prod.fst) ∧
    (runReport "d" "html,pdf" (Except.ok ⟨"t", []⟩) (fun _ => Except.ok "d/report.html")
        (fun _ => Except.error "chromedp PDF generation failed")).map Prod.fst =
      Except.ok "d/report.html" :=
  ⟨(c6_secondary_independent "d" "html,pdf" (Except.ok ⟨"t", []⟩)
      (fun _ => Except.ok "d/report.html")
      (fun _ => Except.error "chromedp PDF generation failed")
      (fun _ => Except.ok "d/report.pdf")).1,
    (c6_secondary_independent "d" "html,pdf" (Except.ok ⟨"t", []⟩)
      (fun _ => Except.ok "d/report.html")
      (fun _ => Except.error "chromedp PDF generation failed")
      (fun _ => Except.ok "d/report.pdf")).2 ⟨"t", []⟩ "d/report.html" (by decide) rfl rfl⟩

/-- C8: a non-empty finding sequence in which every severity normalizes to
critical has weighted = 4 * total, score 0 and grade F. -/
theorem c8_all_critical : ∀ res : ScanResult, res.Findings ≠ [] →
    (∀ f ∈ res.Findings, effectiveSeverity f.Severity = "critical") →
    weightedOf res.Findings = 4 * res.Findings.length ∧
    (buildViewModel res).Score = 0 ∧ (buildViewModel res).Grade = "F" := by
  intro res hne hall
  have hsev : ∀ s ∈ severities res.Findings, sevWeight s = 4 := by
    intro s hs
    rcases List.mem_map.mp hs with ⟨f, hf, rfl⟩
    rw [hall f hf]
    decide
  have hw : weightedOf res.Findings = 4 * (severities res.Findings).length :=
    sum_map_weight_const 4 _ hsev
  have hlen : (severities res.Findings).length = res.Findings.length :=
    List.length_map res.Findings _
  have hpos : 0 < res.Findings.length := List.length_pos.mpr hne
  have hscore : scoreOf res.Findings = 0 := by
    unfold scoreOf
    rw [if_pos (by rw [totalOf_eq_length]; omega)]
    have hdiv : weightedOf res.Findings * 100 / (totalOf res.Findings * 4) = 100 := by
      rw [hw, totalOf_eq_length, hlen, Nat.mul_comm res.Findings.length 4]
      exact Nat.mul_div_cancel_left 100 (by omega)
    rw [hdiv]
    decide
  refine ⟨by rw [hw, hlen], hscore, ?_⟩
  show scoreToGrade (scoreOf res.Findings) = "F"
  rw [hscore]
  decide

/-- C8 witness: one finding with severity " CRITICAL " scores 0 with grade F. -/
theorem c8_witness :
    weightedOf [⟨"id1", "t", "nuclei", "tpl", " CRITICAL ", "d", "e", "r", []⟩] =
      4 * ([⟨"id1", "t", "nuclei", "tpl", " CRITICAL ", "d", "e", "r", []⟩] : List Finding).length ∧
    (buildViewModel ⟨"t", [⟨"id1", "t", "nuclei", "tpl", " CRITICAL ", "d", "e", "r", []⟩]⟩).Score = 0 ∧
    (buildViewModel ⟨"t", [⟨"id1", "t", "nuclei", "tpl", " CRITICAL ", "d", "e", "r", []⟩]⟩).Grade = "F" :=
  c8_all_critical ⟨"t", [⟨"id1", "t", "nuclei", "tpl", " CRITICAL ", "d", "e", "r", []⟩]⟩
    (by decide) (by decide)

/-- C9: a row's severity is the uppercased effective severity; its id is
"N/A" exactly when the finding id is empty or whitespace-only and is the id
unchanged otherwise; its template likewise falls back to "-". -/
theorem c9_fallbacks : ∀ f : Finding,
    (toRow f).Severity = toUpperStr (effectiveSeverity f.Severity) ∧
    (trimSpace f.ID = "" → (toRow f).ID = "N/A") ∧
    (trimSpace f.ID ≠ "" → (toRow f).ID = f.ID) ∧
    (trimSpace f.Template = "" → (toRow f).Template = "-") ∧
    (trimSpace f.Template ≠ "" → (toRow f).Template = f.Template) := by
  intro f
  refine ⟨rfl, fun h => ?_, fun h => ?_, fun h => ?_, fun h => ?_⟩ <;>
    simp [toRow, fallback, h]

/-- C9 witness: a finding with whitespace id and empty template renders as
"N/A" and "-"; a finding with non-blank id and template renders them as-is. -/
theorem c9_witness :
    (toRow ⟨"  ", "t", "s", "", "x", "", "", "", []⟩).ID = "N/A" ∧
    (toRow ⟨"  ", "t", "s", "", "x", "", "", "", []⟩).Template = "-" ∧
    (toRow ⟨"abc", "t", "s", "tpl", "x", "", "", "", []⟩).ID = "abc" ∧
    (toRow ⟨"abc", "t", "s", "tpl", "x", "", "", "", []⟩).Template = "tpl" :=
  ⟨(c9_fallbacks ⟨"  ", "t", "s", "", "x", "", "", "", []⟩).2.1 (by decide),
    (c9_fallbacks ⟨"  ", "t", "s", "", "x", "", "", "", []⟩).2.2.2.1 (by decide),
    (c9_fallbacks ⟨"abc", "t", "s", "tpl", "x", "", "", "", []⟩).2.2.1 (by decide),
    (c9_fallbacks ⟨"abc", "t", "s", "tpl", "x", "", "", "", []⟩).2.2.2.2 (by decide)⟩

/-- C10: a non-empty finding sequence in which every severity normalizes to
info has weighted 0, score 100 and grade A: a perfect score is not exclusive
to the empty run. -/
theorem c10_all_info : ∀ res : ScanResult, res.Findings ≠ [] →
    (∀ f ∈ res.Findings, effectiveSeverity f.Severity = "info") →
    weightedOf res.Findings = 0 ∧
    (buildViewModel res).Score = 100 ∧ (buildViewModel res).Grade = "A" := by
  intro res hne hall
  have hsev : ∀ s ∈ severities res.Findings, sevWeight s = 0 := by
    intro s hs
    rcases List.mem_map.mp hs with ⟨f, hf, rfl⟩
    rw [hall f hf]
    decide
  have hw : weightedOf res.Findings = 0 := by
    have h0 := sum_map_weight_const 0 _ hsev
    simpa using h0
  have hscore : scoreOf res.Findings = 100 := by
    unfold scoreOf
    by_cases hpos : 0 < totalOf res.Findings
    · rw [if_pos hpos, hw]
      norm_num [goMin]
    · rw [if_neg hpos]
  refine ⟨hw, hscore, ?_⟩
  show scoreToGrade (scoreOf res.Findings) = "A"
  rw [hscore]
  decide

/-- C10 witness: one finding with severity "Info " scores 100 with grade A. -/
theorem c10_witness :
    weightedOf [⟨"id1", "t", "nuclei", "tpl", "Info ", "d", "e", "r", []⟩] = 0 ∧
    (buildViewModel ⟨"t", [⟨"id1", "t", "nuclei", "tpl", "Info ", "d", "e", "r", []⟩]⟩).Score = 100 ∧
    (buildViewModel ⟨"t", [⟨"id1", "t", "nuclei", "tpl", "Info ", "d", "e", "r", []⟩]⟩).Grade = "A" :=
  c10_all_info ⟨"t", [⟨"id1", "t", "nuclei", "tpl", "Info ", "d", "e", "r", []⟩]⟩
    (by decide) (by decide)
